import Mathlib

set_option maxRecDepth 100000

/-!
Verification development for the `zuuid` command-line UUID generator
(`src/main.rs`).  The program's core is the format-precedence resolver
`determine_format_precedence`, which scans the raw argument list for the
short-flag indicator characters `f`/`F` (full format) and `s`/`S` (simple
format) and decides which format wins by textual order, plus the formatter
`generate_uuid`, which renders a generated 128-bit identifier either as the
36-character hyphenated string or the 32-character compact string.

Tokens are modelled as lists of characters and the argument list as a list of
tokens.  The Rust condition `arg.starts_with('-') && arg.len() > 1` tests the
byte length, but when the first character is the one-byte `'-'` the byte
length exceeds 1 exactly when the character length does, so the character
model below is faithful.  UUID generation itself (`Uuid::new_v4`,
`Uuid::now_v7`) is an external capability: the formatter is modelled as a
function of the already generated 16-byte value.
-/

namespace Zuuid

/-- Language for localized messages (enum `Language` in `src/main.rs`).
Detection from environment variables is an external effect; the language is
passed explicitly. -/
inductive Language
  | English
  | Chinese
deriving DecidableEq

/-- Localized invalid-version message (`Messages::invalid_version`,
`src/main.rs` lines 59-64); Rust's `format!` interpolation is modelled by
string concatenation. -/
def Messages.invalid_version (lang : Language) (version : String) : String :=
  match lang with
  | .English => "Invalid UUID version: " ++ version ++ ". Valid values: 4, 7"
  | .Chinese => "无效的 UUID 版本：" ++ version ++ "。有效值：4、7"

/-- UUID version to generate (enum `UuidVersion` in `src/main.rs`). -/
inductive UuidVersion
  | V4
  | V7
deriving DecidableEq

/-- Character-wise lowercasing, modelling Rust's `str::to_lowercase`.
`Char.toLower` performs ASCII lowercasing, which agrees with Rust's
Unicode lowercasing on every character that can make the input match one
of the recognized version tokens. -/
def toLowercase (s : String) : String := ⟨s.data.map Char.toLower⟩

/-- Version-string parsing (`impl FromStr for UuidVersion`, `src/main.rs`
lines 80-89).  The Rust code lowercases the input with `to_lowercase` and
matches `"4" | "v4"` and `"7" | "v7"`.  The detected language is passed
explicitly. -/
def UuidVersion.from_str (lang : Language) (s : String) : Except String UuidVersion :=
  let t := toLowercase s
  if t = "4" ∨ t = "v4" then .ok .V4
  else if t = "7" ∨ t = "v7" then .ok .V7
  else .error (Messages.invalid_version lang s)

/-- Class-A indicator characters: `'f' | 'F'` (`src/main.rs` line 142). -/
def isFullChar (c : Char) : Bool := c = 'f' ∨ c = 'F'

/-- Class-B indicator characters: `'s' | 'S'` (`src/main.rs` line 147). -/
def isSimpleChar (c : Char) : Bool := c = 's' ∨ c = 'S'

/-- The token filter of the scanner: `arg.starts_with('-') && arg.len() > 1`
(`src/main.rs` line 138). -/
def isFlagToken (t : List Char) : Bool := t.head? = some '-' ∧ 1 < t.length

/-- The inner character loop of `determine_format_precedence`
(`src/main.rs` lines 140-154): scan the characters of one token after its
leading dash, recording the composite position `i * 1000 + j` of the first
full indicator and of the first simple indicator.  `i` is the token index,
`j` the index of the current character within the scanned tail, and
`fp`/`sp` the positions recorded so far. -/
def scanChars (i : Nat) : List Char → Nat → Option Nat × Option Nat → Option Nat × Option Nat
  | [], _, st => st
  | c :: cs, j, (fp, sp) =>
    if isFullChar c then
      scanChars i cs (j + 1) (if fp.isNone then (some (i * 1000 + j), sp) else (fp, sp))
    else if isSimpleChar c then
      scanChars i cs (j + 1) (if sp.isNone then (fp, some (i * 1000 + j)) else (fp, sp))
    else
      scanChars i cs (j + 1) (fp, sp)

/-- The outer token loop of `determine_format_precedence`
(`src/main.rs` lines 136-156): every token that starts with a dash and has
more than one character is scanned after dropping the leading dash; all
other tokens are skipped.  `i` is the index of the current token. -/
def scanArgs : List (List Char) → Nat → Option Nat × Option Nat → Option Nat × Option Nat
  | [], _, st => st
  | t :: ts, i, st =>
    scanArgs ts (i + 1) (if isFlagToken t then scanChars i (t.drop 1) 0 st else st)

/-- The precedence resolver `determine_format_precedence`
(`src/main.rs` lines 129-166).  The raw argument list (which in the program
is `std::env::args()` and includes the program name at index 0) is passed
explicitly.  Returns `(prefer_full, conflict_detected)`. -/
def determine_format_precedence (args : List (List Char)) : Bool × Bool :=
  match scanArgs args 0 (none, none) with
  | (some f, some s) => (decide (f < s), true)
  | (some _, none) => (true, false)
  | (none, _) => (true, false)

/-- First index at or after `j` at which `p` holds, scanning left to right.
Spec-level helper used to state which occurrence the scanner records. -/
def findFrom (p : Char → Bool) : List Char → Nat → Option Nat
  | [], _ => none
  | c :: cs, j => if p c then some j else findFrom p cs (j + 1)

/-- Modelled from the spec: the first `(token index, character offset)` at
which a character of class `p` appears in a qualifying (dash-prefixed)
token, scanning tokens left to right and characters within the scanned tail
of each token left to right.  `i` is the index of the first listed token. -/
def firstPosFrom (p : Char → Bool) : List (List Char) → Nat → Option (Nat × Nat)
  | [], _ => none
  | t :: ts, i =>
    if isFlagToken t then
      match findFrom p (t.drop 1) 0 with
      | some j => some (i, j)
      | none => firstPosFrom p ts (i + 1)
    else firstPosFrom p ts (i + 1)

/-- First occurrence position of class `p` over the whole argument list. -/
def firstPos (p : Char → Bool) (args : List (List Char)) : Option (Nat × Nat) :=
  firstPosFrom p args 0

/-- The composite position key `tokenIndex * 1000 + characterIndex`
(`src/main.rs` lines 144 and 149). -/
def encPos (q : Nat × Nat) : Nat := q.1 * 1000 + q.2

/-- Modelled from the spec: lexicographic comparison of
`(token index, character offset)` pairs — token index first, character
offset as the tie-break. -/
def posLt (a b : Nat × Nat) : Prop := a.1 < b.1 ∨ (a.1 = b.1 ∧ a.2 < b.2)

instance (a b : Nat × Nat) : Decidable (posLt a b) :=
  inferInstanceAs (Decidable (_ ∨ _))

/-- Whether any character of class `p` occurs in the scanned tail of some
qualifying (dash-prefixed, length > 1) token. -/
def classOccurs (p : Char → Bool) (args : List (List Char)) : Bool :=
  args.any fun t => isFlagToken t && (t.drop 1).any p

/-- Keep the first recorded position: `a` if present, otherwise `b`. -/
def firstSome : Option Nat → Option Nat → Option Nat
  | some x, _ => some x
  | none, b => b

/-- Argument list whose first token is a dash followed by 1001 junk
characters and an `f`: the `f` sits at character offset 1001, past the
1000-character capacity of the composite position key. -/
def longTokenArgsA : List (List Char) := ['-' :: (List.replicate 1001 'x' ++ ['f']), ['-', 's']]

/-- Argument list whose first token is a dash followed by 1000 junk
characters and an `f`: the `f` sits at character offset 1000, so its
composite key collides with the key of token index 1, offset 0. -/
def longTokenArgsB : List (List Char) := ['-' :: (List.replicate 1000 'y' ++ ['f']), ['-', 's']]

end Zuuid

namespace Zuuid

/-- Lowercase hexadecimal digit for a nibble, as produced by the `uuid`
crate's encoding. -/
def hexDigitChar (n : Nat) : Char :=
  if n < 10 then Char.ofNat ('0'.toNat + n) else Char.ofNat ('a'.toNat + (n - 10))

/-- Two lowercase hex characters of one byte, high nibble first. -/
def byteHexChars (b : Nat) : List Char :=
  [hexDigitChar (b / 16), hexDigitChar (b % 16)]

/-- The compact 32-character rendering `id.as_simple().to_string()`:
the 16 bytes in order, each as two lowercase hex characters, no
separators. -/
def simpleFormatChars : List Nat → List Char
  | [] => []
  | b :: bs => byteHexChars b ++ simpleFormatChars bs

/-- The hyphenated 36-character rendering `id.to_string()`: byte groups of
sizes 4, 2, 2, 2 and 6, rendered in lowercase hex and separated by
hyphens (the 8-4-4-4-12 character pattern). -/
def hyphenatedFormatChars (bs : List Nat) : List Char :=
  simpleFormatChars (bs.take 4)
    ++ '-' :: (simpleFormatChars ((bs.drop 4).take 2)
    ++ '-' :: (simpleFormatChars ((bs.drop 6).take 2)
    ++ '-' :: (simpleFormatChars ((bs.drop 8).take 2)
    ++ '-' :: simpleFormatChars (bs.drop 10))))

/-- The final case step of `generate_uuid` (`src/main.rs` lines 204-208):
uppercase every character when requested.  The rendered characters are ASCII
hex digits and hyphens, on which Rust's `to_uppercase` and `Char.toUpper`
agree. -/
def applyUpper (uppercase : Bool) (cs : List Char) : List Char :=
  if uppercase then cs.map Char.toUpper else cs

/-- The formatter `generate_uuid` (`src/main.rs` lines 182-209).  The
identifier produced by the external generation capability selected by
`version` is passed in as the 16-byte list `id`; `version` itself does not
influence the formatting branch. -/
def generate_uuid (version : UuidVersion) (uppercase simple full prefer_full : Bool)
    (id : List Nat) : List Char :=
  let _ := version
  let output :=
    if full && simple then
      if prefer_full then hyphenatedFormatChars id else simpleFormatChars id
    else if full then hyphenatedFormatChars id
    else if simple then simpleFormatChars id
    else hyphenatedFormatChars id
  applyUpper uppercase output

/-- Hexadecimal-digit test (either case) used to state output-shape
properties. -/
def isHexDigitB (c : Char) : Bool :=
  ('0' ≤ c ∧ c ≤ '9') ∨ ('a' ≤ c ∧ c ≤ 'f') ∨ ('A' ≤ c ∧ c ≤ 'F')

end Zuuid

namespace Zuuid

/-! Correspondence between the imperative scanner and the spec-level
first-occurrence function. -/

theorem firstSome_none_right (a : Option Nat) : firstSome a none = a := by
  cases a <;> rfl

theorem firstSome_assoc (a b c : Option Nat) :
    firstSome (firstSome a b) c = firstSome a (firstSome b c) := by
  cases a <;> cases b <;> rfl

theorem isSimpleChar_eq_false_of_isFullChar (c : Char) (h : isFullChar c = true) :
    isSimpleChar c = false := by
  simp only [isFullChar, decide_eq_true_eq] at h
  rcases h with rfl | rfl <;> decide

theorem scanChars_eq (i : Nat) :
    ∀ (cs : List Char) (j : Nat) (fp sp : Option Nat),
      scanChars i cs j (fp, sp) =
        (firstSome fp ((findFrom isFullChar cs j).map fun k => i * 1000 + k),
         firstSome sp ((findFrom isSimpleChar cs j).map fun k => i * 1000 + k))
  | [], j, fp, sp => by
    simp [scanChars, findFrom, firstSome_none_right]
  | c :: cs, j, fp, sp => by
    by_cases hf : isFullChar c
    · have hs := isSimpleChar_eq_false_of_isFullChar c hf
      cases fp with
      | none =>
        simp only [scanChars, hf, Option.isNone_none, if_true]
        rw [scanChars_eq i cs (j + 1) (some (i * 1000 + j)) sp]
        simp [findFrom, hf, hs, firstSome]
      | some x =>
        simp only [scanChars, hf, Option.isNone_some, Bool.false_eq_true, if_true, if_false]
        rw [scanChars_eq i cs (j + 1) (some x) sp]
        simp [findFrom, hf, hs, firstSome]
    · by_cases hs : isSimpleChar c
      · cases sp with
        | none =>
          simp only [scanChars, hf, hs, Option.isNone_none, Bool.false_eq_true,
            if_true, if_false]
          rw [scanChars_eq i cs (j + 1) fp (some (i * 1000 + j))]
          simp [findFrom, hf, hs, firstSome]
        | some x =>
          simp only [scanChars, hf, hs, Option.isNone_some, Bool.false_eq_true,
            if_true, if_false]
          rw [scanChars_eq i cs (j + 1) fp (some x)]
          simp [findFrom, hf, hs, firstSome]
      · simp only [scanChars, hf, hs, Bool.false_eq_true, if_true, if_false]
        rw [scanChars_eq i cs (j + 1) fp sp]
        simp [findFrom, hf, hs]

theorem firstPosFrom_cons_map (p : Char → Bool) (t : List Char) (ts : List (List Char)) (i : Nat) :
    (firstPosFrom p (t :: ts) i).map encPos =
      if isFlagToken t then
        firstSome ((findFrom p (t.drop 1) 0).map fun k => i * 1000 + k)
          ((firstPosFrom p ts (i + 1)).map encPos)
      else (firstPosFrom p ts (i + 1)).map encPos := by
  by_cases h : isFlagToken t
  · simp only [firstPosFrom, h, if_true]
    cases hf : findFrom p (t.drop 1) 0 <;> simp [firstSome, encPos]
  · simp [firstPosFrom, h]

theorem scanArgs_eq :
    ∀ (args : List (List Char)) (i : Nat) (fp sp : Option Nat),
      scanArgs args i (fp, sp) =
        (firstSome fp ((firstPosFrom isFullChar args i).map encPos),
         firstSome sp ((firstPosFrom isSimpleChar args i).map encPos))
  | [], i, fp, sp => by
    simp [scanArgs, firstPosFrom, firstSome_none_right]
  | t :: ts, i, fp, sp => by
    by_cases h : isFlagToken t
    · simp only [scanArgs, h, if_true]
      rw [scanChars_eq, scanArgs_eq ts (i + 1), firstPosFrom_cons_map, firstPosFrom_cons_map]
      simp [h, firstSome_assoc]
    · simp only [scanArgs, h, Bool.false_eq_true, if_true, if_false]
      rw [scanArgs_eq ts (i + 1), firstPosFrom_cons_map, firstPosFrom_cons_map]
      simp [h]

/-- Characterization of the resolver in terms of the first occurrence of
each indicator class and the composite position key. -/
theorem determine_eq (args : List (List Char)) :
    determine_format_precedence args =
      match firstPos isFullChar args, firstPos isSimpleChar args with
      | some a, some b => (decide (encPos a < encPos b), true)
      | some _, none => (true, false)
      | none, _ => (true, false) := by
  unfold determine_format_precedence firstPos
  rw [scanArgs_eq]
  cases firstPosFrom isFullChar args 0 <;> cases firstPosFrom isSimpleChar args 0 <;>
    simp [firstSome]

theorem findFrom_lt (p : Char → Bool) :
    ∀ (cs : List Char) (j k : Nat), findFrom p cs j = some k → k < j + cs.length
  | [], j, k, h => by simp [findFrom] at h
  | c :: cs, j, k, h => by
    by_cases hp : p c
    · simp only [findFrom, hp, if_true] at h
      cases h
      simp
    · simp only [findFrom, hp, if_false] at h
      have := findFrom_lt p cs (j + 1) k h
      simp only [List.length_cons]
      omega

theorem firstPosFrom_offset_lt (p : Char → Bool) :
    ∀ (args : List (List Char)) (i : Nat) (a : Nat × Nat),
      firstPosFrom p args i = some a → (∀ t ∈ args, t.length ≤ 1001) → a.2 < 1000
  | [], i, a, h, _ => by simp [firstPosFrom] at h
  | t :: ts, i, a, h, hlen => by
    by_cases hq : isFlagToken t
    · simp only [firstPosFrom, hq, if_true] at h
      cases hf : findFrom p (t.drop 1) 0 with
      | none =>
        rw [hf] at h
        exact firstPosFrom_offset_lt p ts (i + 1) a h fun u hu => hlen u (List.mem_cons_of_mem t hu)
      | some j =>
        rw [hf] at h
        cases h
        have h1 := findFrom_lt p (t.drop 1) 0 j hf
        have h2 : t.length ≤ 1001 := hlen t (List.mem_cons_self t ts)
        simp only [List.length_drop] at h1
        omega
    · simp only [firstPosFrom, hq, if_false] at h
      exact firstPosFrom_offset_lt p ts (i + 1) a h fun u hu => hlen u (List.mem_cons_of_mem t hu)

theorem findFrom_eq_none (p : Char → Bool) :
    ∀ (cs : List Char) (j : Nat), cs.any p = false → findFrom p cs j = none
  | [], _, _ => rfl
  | c :: cs, j, h => by
    simp only [List.any_cons, Bool.or_eq_false_iff] at h
    simp only [findFrom, h.1, if_false]
    exact findFrom_eq_none p cs (j + 1) h.2

theorem firstPosFrom_eq_none (p : Char → Bool) :
    ∀ (args : List (List Char)) (i : Nat),
      classOccurs p args = false → firstPosFrom p args i = none
  | [], _, _ => rfl
  | t :: ts, i, h => by
    simp only [classOccurs, List.any_cons, Bool.or_eq_false_iff, Bool.and_eq_false_iff] at h
    obtain ⟨h1, h2⟩ := h
    by_cases hq : isFlagToken t
    · have hany : (t.drop 1).any p = false := by
        rcases h1 with h1 | h1
        · rw [hq] at h1; cases h1
        · exact h1
      simp only [firstPosFrom, hq, if_true, findFrom_eq_none p (t.drop 1) 0 hany]
      exact firstPosFrom_eq_none p ts (i + 1) h2
    · simp only [firstPosFrom, hq, if_false]
      exact firstPosFrom_eq_none p ts (i + 1) h2

theorem encPos_lt_iff (a b : Nat × Nat) (ha : a.2 < 1000) (hb : b.2 < 1000) :
    (encPos a < encPos b) ↔ posLt a b := by
  obtain ⟨i1, j1⟩ := a
  obtain ⟨i2, j2⟩ := b
  simp only [encPos, posLt] at *
  omega

theorem scanArgs_skip_congr (t t' : List Char) (ht : isFlagToken t = false)
    (ht' : isFlagToken t' = false) (post : List (List Char)) :
    ∀ (pre : List (List Char)) (i : Nat) (st : Option Nat × Option Nat),
      scanArgs (pre ++ t :: post) i st = scanArgs (pre ++ t' :: post) i st
  | [], i, st => by
    simp only [List.nil_append, scanArgs, ht, ht', Bool.false_eq_true, if_false]
  | p :: ps, i, st => by
    simp only [List.cons_append, scanArgs]
    exact scanArgs_skip_congr t t' ht ht' post ps (i + 1) _

theorem determine_skip_congr (t t' : List Char) (ht : isFlagToken t = false)
    (ht' : isFlagToken t' = false) (pre post : List (List Char)) :
    determine_format_precedence (pre ++ t :: post) =
      determine_format_precedence (pre ++ t' :: post) := by
  unfold determine_format_precedence
  rw [scanArgs_skip_congr t t' ht ht' post pre 0 (none, none)]

/-! Claim theorems for the precedence resolver. -/

/-- C1 (amended): for every raw argument list of tokens at most 1001
characters long (so character offsets stay below the composite key's
constant 1000) in which both indicator classes occur, the resolver reports
a conflict, and it prefers the full format exactly when the first
`f`/`F` occurrence precedes the first `s`/`S` occurrence in the
lexicographic (token index, character offset) order. -/
theorem resolver_conflict_textual_order (args : List (List Char)) (a b : Nat × Nat)
    (hlen : ∀ t ∈ args, t.length ≤ 1001)
    (ha : firstPos isFullChar args = some a)
    (hb : firstPos isSimpleChar args = some b) :
    determine_format_precedence args = (decide (posLt a b), true) := by
  have ha2 := firstPosFrom_offset_lt isFullChar args 0 a ha hlen
  have hb2 := firstPosFrom_offset_lt isSimpleChar args 0 b hb hlen
  rw [determine_eq args]
  simp only [ha, hb]
  rw [decide_eq_decide.mpr (encPos_lt_iff a b ha2 hb2)]

/-- Witness for C1: on `["-f", "-s"]` both classes occur, the full
indicator comes first, and the resolver returns `(true, true)`. -/
theorem resolver_conflict_textual_order_witness :
    determine_format_precedence [['-', 'f'], ['-', 's']] = (true, true) := by
  have h := resolver_conflict_textual_order [['-', 'f'], ['-', 's']] (0, 0) (1, 0)
    (by decide) (by decide) (by decide)
  exact h.trans (by decide)

/-- Counterexample to C1 as stated: in `longTokenArgsA` the first `f`
occurrence (token 0, offset 1001) textually precedes the first `s`
occurrence (token 1, offset 0), yet the resolver prefers the simple
format, because the composite keys compare as 1001 > 1000. -/
theorem resolver_conflict_textual_order_cex :
    firstPos isFullChar longTokenArgsA = some (0, 1001) ∧
    firstPos isSimpleChar longTokenArgsA = some (1, 0) ∧
    posLt (0, 1001) (1, 0) ∧
    determine_format_precedence longTokenArgsA = (false, true) := by
  decide

/-- C2: whenever at most one of the two indicator classes occurs in
dash-prefixed tokens — in particular for the empty list and for lists with
no flags at all — the resolver returns no conflict and defaults to
preferring the full format. -/
theorem resolver_no_conflict_default (args : List (List Char))
    (h : classOccurs isFullChar args = false ∨ classOccurs isSimpleChar args = false) :
    determine_format_precedence args = (true, false) := by
  rw [determine_eq args]
  rcases h with h | h
  · rw [show firstPos isFullChar args = none from firstPosFrom_eq_none isFullChar args 0 h]
  · rw [show firstPos isSimpleChar args = none from firstPosFrom_eq_none isSimpleChar args 0 h]
    cases firstPos isFullChar args <;> rfl

/-- Witness for C2: `["-f"]` contains only the full class and resolves to
`(true, false)`; so does the empty argument list. -/
theorem resolver_no_conflict_default_witness :
    determine_format_precedence [['-', 'f']] = (true, false) ∧
    determine_format_precedence [] = (true, false) := by
  refine ⟨resolver_no_conflict_default [['-', 'f']] (Or.inr (by decide)), ?_⟩
  exact resolver_no_conflict_default [] (Or.inl (by decide))

/-- C3 (amended): tokens that do not start with a dash are never scanned —
replacing one with any other dash-less token leaves the resolver's output
unchanged — but long-form `--` flags are dash-prefixed and are scanned like
any short-form cluster, so they can affect the output. -/
theorem resolver_dashless_tokens_ignored :
    (∀ (pre post : List (List Char)) (t t' : List Char),
        t.head? ≠ some '-' → t'.head? ≠ some '-' →
        determine_format_precedence (pre ++ t :: post) =
          determine_format_precedence (pre ++ t' :: post)) ∧
    determine_format_precedence [['-', 'f'], ['-', '-', 's', 'i', 'm', 'p', 'l', 'e']] ≠
      determine_format_precedence [['-', 'f']] := by
  constructor
  · intro pre post t t' ht ht'
    have h1 : isFlagToken t = false := by
      simp only [isFlagToken, decide_eq_false_iff_not]
      exact fun h => ht h.1
    have h2 : isFlagToken t' = false := by
      simp only [isFlagToken, decide_eq_false_iff_not]
      exact fun h => ht' h.1
    exact determine_skip_congr t t' h1 h2 pre post
  · decide

/-- Witness for C3 (amended): replacing the dash-less token `"x"` with
`"y"` leaves the output unchanged. -/
theorem resolver_dashless_tokens_ignored_witness :
    determine_format_precedence [['x'], ['-', 'f']] =
      determine_format_precedence [['y'], ['-', 'f']] :=
  resolver_dashless_tokens_ignored.1 [] [['-', 'f']] ['x'] ['y'] (by decide) (by decide)

/-- Counterexample to C3 as stated: appending the long-form flag
`"--simple"` changes the resolver's output from `(true, false)` to
`(true, true)` — the token is scanned and its `s` is taken as a simple
indicator, so long-form flags do affect the result. -/
theorem resolver_dashless_tokens_ignored_cex :
    determine_format_precedence [['-', 'f'], ['-', '-', 's', 'i', 'm', 'p', 'l', 'e']] =
      (true, true) ∧
    determine_format_precedence [['-', 'f']] = (true, false) := by
  decide

/-- C4 (amended): for argument lists whose tokens are at most 1001
characters long, the composite key `tokenIndex * 1000 + characterIndex`
orders the first full occurrence against the first simple occurrence
exactly as the lexicographic comparison of the (token index, character
offset) pairs, in both directions. -/
theorem composite_key_matches_lex_order (args : List (List Char)) (a b : Nat × Nat)
    (hlen : ∀ t ∈ args, t.length ≤ 1001)
    (ha : firstPos isFullChar args = some a)
    (hb : firstPos isSimpleChar args = some b) :
    ((encPos a < encPos b) ↔ posLt a b) ∧ ((encPos b < encPos a) ↔ posLt b a) := by
  have ha2 := firstPosFrom_offset_lt isFullChar args 0 a ha hlen
  have hb2 := firstPosFrom_offset_lt isSimpleChar args 0 b hb hlen
  exact ⟨encPos_lt_iff a b ha2 hb2, encPos_lt_iff b a hb2 ha2⟩

/-- Witness for C4: on the single token `"-fs"` the two first occurrences
are (0, 0) and (0, 1) and the composite keys order them like the pairs. -/
theorem composite_key_matches_lex_order_witness :
    (encPos (0, 0) < encPos (0, 1)) ↔ posLt (0, 0) (0, 1) :=
  (composite_key_matches_lex_order [['-', 'f', 's']] (0, 0) (0, 1)
    (by decide) (by decide) (by decide)).1

/-- Counterexample to C4 as stated: in `longTokenArgsB` the first full
occurrence (0, 1000) lexicographically precedes the first simple
occurrence (1, 0), but the composite keys are both 1000, so the composite
comparison disagrees with the lexicographic one. -/
theorem composite_key_matches_lex_order_cex :
    firstPos isFullChar longTokenArgsB = some (0, 1000) ∧
    firstPos isSimpleChar longTokenArgsB = some (1, 0) ∧
    posLt (0, 1000) (1, 0) ∧
    ¬(encPos (0, 1000) < encPos (1, 0)) := by
  decide

/-- C9: the resolver is a total pure function: every argument list yields a
pair that is either the no-conflict default `(true, false)` or has the
conflict flag set; the empty list yields the default; and a token
consisting of only a dash contributes nothing, exactly like a dash-less
token. -/
theorem resolver_total_no_failure :
    (∀ args : List (List Char),
        determine_format_precedence args = (true, false) ∨
        (determine_format_precedence args).2 = true) ∧
    determine_format_precedence [] = (true, false) ∧
    (∀ pre post : List (List Char),
        determine_format_precedence (pre ++ ['-'] :: post) =
          determine_format_precedence (pre ++ ['x'] :: post)) := by
  refine ⟨?_, rfl, ?_⟩
  · intro args
    rw [determine_eq args]
    cases firstPos isFullChar args <;> cases firstPos isSimpleChar args
    · exact Or.inl rfl
    · exact Or.inl rfl
    · exact Or.inl rfl
    · exact Or.inr rfl
  · intro pre post
    exact determine_skip_congr ['-'] ['x'] (by decide) (by decide) pre post

/-- C10: the program's own long flag `--uuid-version` contains the letter
`s`, so `["zuuid", "-f", "--uuid-version", "7"]` — which carries no simple
flag — still resolves to a conflict with the full format preferred: the
first full occurrence is (1, 0) and the first "simple" occurrence is the
`s` of `--uuid-version` at (2, 9). -/
theorem long_flag_name_triggers_conflict :
    determine_format_precedence
      [['z', 'u', 'u', 'i', 'd'], ['-', 'f'],
       ['-', '-', 'u', 'u', 'i', 'd', '-', 'v', 'e', 'r', 's', 'i', 'o', 'n'], ['7']] =
      (true, true) ∧
    firstPos isFullChar
      [['z', 'u', 'u', 'i', 'd'], ['-', 'f'],
       ['-', '-', 'u', 'u', 'i', 'd', '-', 'v', 'e', 'r', 's', 'i', 'o', 'n'], ['7']] =
      some (1, 0) ∧
    firstPos isSimpleChar
      [['z', 'u', 'u', 'i', 'd'], ['-', 'f'],
       ['-', '-', 'u', 'u', 'i', 'd', '-', 'v', 'e', 'r', 's', 'i', 'o', 'n'], ['7']] =
      some (2, 9) := by
  decide

/-! Shape lemmas for the formatter. -/

theorem applyUpper_length (u : Bool) (cs : List Char) :
    (applyUpper u cs).length = cs.length := by
  cases u <;> simp [applyUpper]

theorem simpleFormatChars_length : ∀ bs : List Nat,
    (simpleFormatChars bs).length = 2 * bs.length
  | [] => rfl
  | b :: bs => by
    simp only [simpleFormatChars, byteHexChars, List.length_append, List.length_cons,
      List.length_nil, simpleFormatChars_length bs]
    omega

theorem hyphenatedFormatChars_length (bs : List Nat) (h : bs.length = 16) :
    (hyphenatedFormatChars bs).length = 36 := by
  simp only [hyphenatedFormatChars, List.length_append, List.length_cons,
    simpleFormatChars_length, List.length_take, List.length_drop, h]
  omega

theorem hexDigitChar_props : ∀ m, m < 16 →
    isHexDigitB (hexDigitChar m) = true ∧ isHexDigitB ((hexDigitChar m).toUpper) = true ∧
    hexDigitChar m ≠ '-' ∧ (hexDigitChar m).toUpper ≠ '-' := by
  decide

theorem mem_simpleFormatChars :
    ∀ (bs : List Nat), (∀ b ∈ bs, b < 256) →
      ∀ c ∈ simpleFormatChars bs, ∃ m, m < 16 ∧ c = hexDigitChar m
  | [], _, c, hc => by simp [simpleFormatChars] at hc
  | b :: bs, hb, c, hc => by
    have hblt : b < 256 := hb b (List.mem_cons_self b bs)
    simp only [simpleFormatChars, byteHexChars, List.mem_append, List.mem_cons,
      List.not_mem_nil, or_false] at hc
    rcases hc with (rfl | rfl) | h
    · exact ⟨b / 16, by omega, rfl⟩
    · exact ⟨b % 16, by omega, rfl⟩
    · exact mem_simpleFormatChars bs (fun u hu => hb u (List.mem_cons_of_mem b hu)) c h

theorem mem_applyUpper_simple (u : Bool) (bs : List Nat) (hb : ∀ b ∈ bs, b < 256) :
    ∀ c ∈ applyUpper u (simpleFormatChars bs), isHexDigitB c = true ∧ c ≠ '-' := by
  cases u with
  | false =>
    intro c hc
    obtain ⟨m, hm, rfl⟩ := mem_simpleFormatChars bs hb c hc
    exact ⟨(hexDigitChar_props m hm).1, (hexDigitChar_props m hm).2.2.1⟩
  | true =>
    intro c hc
    simp only [applyUpper, if_true, List.mem_map] at hc
    obtain ⟨d, hd, rfl⟩ := hc
    obtain ⟨m, hm, rfl⟩ := mem_simpleFormatChars bs hb d hd
    exact ⟨(hexDigitChar_props m hm).2.1, (hexDigitChar_props m hm).2.2.2⟩

theorem count_dash_applyUpper_simple (u : Bool) (bs : List Nat) (hb : ∀ b ∈ bs, b < 256) :
    (applyUpper u (simpleFormatChars bs)).count '-' = 0 :=
  List.count_eq_zero.mpr fun hmem => (mem_applyUpper_simple u bs hb '-' hmem).2 rfl

theorem dash_toUpper : '-'.toUpper = '-' := by decide

theorem applyUpper_hyphenated_decomp (u : Bool) (bs : List Nat) :
    applyUpper u (hyphenatedFormatChars bs) =
      applyUpper u (simpleFormatChars (bs.take 4)) ++ '-' ::
      (applyUpper u (simpleFormatChars ((bs.drop 4).take 2)) ++ '-' ::
      (applyUpper u (simpleFormatChars ((bs.drop 6).take 2)) ++ '-' ::
      (applyUpper u (simpleFormatChars ((bs.drop 8).take 2)) ++ '-' ::
       applyUpper u (simpleFormatChars (bs.drop 10))))) := by
  cases u <;> simp [applyUpper, hyphenatedFormatChars, dash_toUpper]

/-! Claim theorems for the formatter. -/

/-- C5: for every version and uppercase setting, when both format flags
are set the formatter follows `prefer_full`: the 36-character hyphenated
rendering when it is true, the 32-character compact rendering when it is
false. -/
theorem formatter_both_flags_use_precedence (version : UuidVersion) (u : Bool)
    (id : List Nat) (h16 : id.length = 16) :
    generate_uuid version u true true true id = applyUpper u (hyphenatedFormatChars id) ∧
    (generate_uuid version u true true true id).length = 36 ∧
    generate_uuid version u true true false id = applyUpper u (simpleFormatChars id) ∧
    (generate_uuid version u true true false id).length = 32 := by
  refine ⟨by simp [generate_uuid], ?_, by simp [generate_uuid], ?_⟩
  · simp [generate_uuid, applyUpper_length, hyphenatedFormatChars_length id h16]
  · simp [generate_uuid, applyUpper_length, simpleFormatChars_length, h16]

/-- Witness for C5 on the all-zero identifier: 36 characters with
precedence to full, 32 with precedence to simple. -/
theorem formatter_both_flags_use_precedence_witness :
    (generate_uuid .V4 false true true true (List.replicate 16 0)).length = 36 ∧
    (generate_uuid .V4 false true true false (List.replicate 16 0)).length = 32 := by
  have h := formatter_both_flags_use_precedence .V4 false (List.replicate 16 0) (by decide)
  exact ⟨h.2.1, h.2.2.2⟩

/-- C6: with both format flags clear the formatter always produces the
36-character default — exactly 4 hyphens arranged as 8-4-4-4-12 groups of
hex digits — and with only the simple flag set it always produces 32 hex
digits with no hyphen, for every version, case setting and precedence
value. -/
theorem formatter_shapes_without_conflict (version : UuidVersion) (u prefer : Bool)
    (id : List Nat) (h16 : id.length = 16) (hbytes : ∀ b ∈ id, b < 256) :
    ((generate_uuid version u false false prefer id).length = 36 ∧
     (generate_uuid version u false false prefer id).count '-' = 4 ∧
     (∃ g1 g2 g3 g4 g5 : List Char,
        generate_uuid version u false false prefer id =
          g1 ++ '-' :: (g2 ++ '-' :: (g3 ++ '-' :: (g4 ++ '-' :: g5))) ∧
        g1.length = 8 ∧ g2.length = 4 ∧ g3.length = 4 ∧ g4.length = 4 ∧ g5.length = 12 ∧
        (∀ c ∈ g1, isHexDigitB c = true) ∧ (∀ c ∈ g2, isHexDigitB c = true) ∧
        (∀ c ∈ g3, isHexDigitB c = true) ∧ (∀ c ∈ g4, isHexDigitB c = true) ∧
        (∀ c ∈ g5, isHexDigitB c = true))) ∧
    ((generate_uuid version u true false prefer id).length = 32 ∧
     (generate_uuid version u true false prefer id).count '-' = 0 ∧
     ∀ c ∈ generate_uuid version u true false prefer id, isHexDigitB c = true) := by
  have hb1 : ∀ b ∈ id.take 4, b < 256 := fun b hb => hbytes b (List.take_subset _ _ hb)
  have hb2 : ∀ b ∈ (id.drop 4).take 2, b < 256 :=
    fun b hb => hbytes b (List.drop_subset _ _ (List.take_subset _ _ hb))
  have hb3 : ∀ b ∈ (id.drop 6).take 2, b < 256 :=
    fun b hb => hbytes b (List.drop_subset _ _ (List.take_subset _ _ hb))
  have hb4 : ∀ b ∈ (id.drop 8).take 2, b < 256 :=
    fun b hb => hbytes b (List.drop_subset _ _ (List.take_subset _ _ hb))
  have hb5 : ∀ b ∈ id.drop 10, b < 256 := fun b hb => hbytes b (List.drop_subset _ _ hb)
  have hgen1 : generate_uuid version u false false prefer id =
      applyUpper u (hyphenatedFormatChars id) := by
    simp [generate_uuid]
  have hgen2 : generate_uuid version u true false prefer id =
      applyUpper u (simpleFormatChars id) := by
    simp [generate_uuid]
  refine ⟨⟨?_, ?_, ?_⟩, ?_, ?_, ?_⟩
  · rw [hgen1, applyUpper_length]
    exact hyphenatedFormatChars_length id h16
  · rw [hgen1, applyUpper_hyphenated_decomp]
    simp [List.count_append, List.count_cons, count_dash_applyUpper_simple u _ hb1,
      count_dash_applyUpper_simple u _ hb2, count_dash_applyUpper_simple u _ hb3,
      count_dash_applyUpper_simple u _ hb4, count_dash_applyUpper_simple u _ hb5]
  · refine ⟨applyUpper u (simpleFormatChars (id.take 4)),
      applyUpper u (simpleFormatChars ((id.drop 4).take 2)),
      applyUpper u (simpleFormatChars ((id.drop 6).take 2)),
      applyUpper u (simpleFormatChars ((id.drop 8).take 2)),
      applyUpper u (simpleFormatChars (id.drop 10)),
      by rw [hgen1]; exact applyUpper_hyphenated_decomp u id, ?_, ?_, ?_, ?_, ?_,
      fun c hc => (mem_applyUpper_simple u _ hb1 c hc).1,
      fun c hc => (mem_applyUpper_simple u _ hb2 c hc).1,
      fun c hc => (mem_applyUpper_simple u _ hb3 c hc).1,
      fun c hc => (mem_applyUpper_simple u _ hb4 c hc).1,
      fun c hc => (mem_applyUpper_simple u _ hb5 c hc).1⟩
    · rw [applyUpper_length, simpleFormatChars_length, List.length_take, h16]
      omega
    · rw [applyUpper_length, simpleFormatChars_length, List.length_take]
      simp [List.length_drop, h16]
    · rw [applyUpper_length, simpleFormatChars_length, List.length_take]
      simp [List.length_drop, h16]
    · rw [applyUpper_length, simpleFormatChars_length, List.length_take]
      simp [List.length_drop, h16]
    · rw [applyUpper_length, simpleFormatChars_length, List.length_drop, h16]
  · rw [hgen2, applyUpper_length, simpleFormatChars_length, h16]
  · rw [hgen2]
    exact count_dash_applyUpper_simple u id hbytes
  · rw [hgen2]
    exact fun c hc => (mem_applyUpper_simple u id hbytes c hc).1

/-- Witness for C6 on the all-zero identifier: 36 characters in the
default shape, 32 in the simple shape. -/
theorem formatter_shapes_without_conflict_witness :
    (generate_uuid .V4 false false false false (List.replicate 16 0)).length = 36 ∧
    (generate_uuid .V4 false true false false (List.replicate 16 0)).length = 32 := by
  have h := formatter_shapes_without_conflict .V4 false false (List.replicate 16 0)
    (by decide) (by decide)
  exact ⟨h.1.1, h.2.1⟩

/-- C7: when the two format flags are not both set, the formatter's output
does not depend on the precedence preference: runs differing only in
`prefer_full` coincide on the same generated identifier. -/
theorem formatter_ignores_precedence_without_conflict (version : UuidVersion)
    (u simple full : Bool) (id : List Nat) (h : ¬(simple = true ∧ full = true)) :
    generate_uuid version u simple full true id =
      generate_uuid version u simple full false id := by
  cases simple <;> cases full
  · rfl
  · rfl
  · rfl
  · exact absurd ⟨rfl, rfl⟩ h

/-- Witness for C7: with only the simple flag set, flipping the
precedence preference leaves the output unchanged. -/
theorem formatter_ignores_precedence_without_conflict_witness :
    generate_uuid .V4 false true false true (List.replicate 16 0) =
      generate_uuid .V4 false true false false (List.replicate 16 0) :=
  formatter_ignores_precedence_without_conflict .V4 false true false
    (List.replicate 16 0) (by decide)

/-- C8: version parsing accepts exactly the recognized tokens after
lowercasing — `"4"`/`"v4"` give V4, `"7"`/`"v7"` give V7 — and any other
string yields the single invalid-version error carrying the offending raw
string inside the localized message. -/
theorem uuid_version_from_str_spec (lang : Language) (s : String) :
    (UuidVersion.from_str lang s = .ok .V4 ↔
      (toLowercase s = "4" ∨ toLowercase s = "v4")) ∧
    (UuidVersion.from_str lang s = .ok .V7 ↔
      (toLowercase s = "7" ∨ toLowercase s = "v7")) ∧
    (¬(toLowercase s = "4" ∨ toLowercase s = "v4") →
      ¬(toLowercase s = "7" ∨ toLowercase s = "v7") →
      UuidVersion.from_str lang s = .error (Messages.invalid_version lang s)) := by
  unfold UuidVersion.from_str
  by_cases h4 : toLowercase s = "4" ∨ toLowercase s = "v4"
  · have h7 : ¬(toLowercase s = "7" ∨ toLowercase s = "v7") := by
      rcases h4 with h | h <;> rw [h] <;> decide
    rw [if_pos h4]
    exact ⟨by simp [h4], by simp [h7], fun h4' _ => absurd h4 h4'⟩
  · by_cases h7 : toLowercase s = "7" ∨ toLowercase s = "v7"
    · rw [if_neg h4, if_pos h7]
      exact ⟨by simp [h4], by simp [h7], fun _ h7' => absurd h7 h7'⟩
    · rw [if_neg h4, if_neg h7]
      exact ⟨by simp [h4], by simp [h7], fun _ _ => rfl⟩

/-- Witness for C8: `"5"` is rejected with the English localized error
message carrying the raw string. -/
theorem uuid_version_from_str_spec_witness :
    UuidVersion.from_str .English "5" =
      .error "Invalid UUID version: 5. Valid values: 4, 7" := by
  have h := (uuid_version_from_str_spec .English "5").2.2 (by decide) (by decide)
  rw [h]
  rfl

end Zuuid

section Scratch

open Zuuid

example : determine_format_precedence [['-', 'f', 's']] = (true, true) := by decide

example : determine_format_precedence [['-', 's'], ['-', 'f']] = (false, true) := by decide

example : determine_format_precedence [] = (true, false) := by decide

example :
    determine_format_precedence
      [['z', 'u', 'u', 'i', 'd'], ['-', 'f'],
       ['-', '-', 'u', 'u', 'i', 'd', '-', 'v', 'e', 'r', 's', 'i', 'o', 'n'], ['7']] =
      (true, true) := by decide

example : UuidVersion.from_str .English "V7" = .ok .V7 := by rfl

example :
    UuidVersion.from_str .English "5" =
      .error "Invalid UUID version: 5. Valid values: 4, 7" := by rfl

example :
    generate_uuid .V4 false false false false
        [0, 1, 2, 3, 4, 5, 6, 7, 8, 9, 10, 11, 12, 13, 14, 255] =
      ('0' :: '0' :: '0' :: '1' :: '0' :: '2' :: '0' :: '3' :: '-' ::
       '0' :: '4' :: '0' :: '5' :: '-' :: '0' :: '6' :: '0' :: '7' :: '-' ::
       '0' :: '8' :: '0' :: '9' :: '-' ::
       '0' :: 'a' :: '0' :: 'b' :: '0' :: 'c' :: '0' :: 'd' :: '0' :: 'e' :: 'f' :: ['f']) := by
  decide

example :
    determine_format_precedence
      ['-' :: (List.replicate 1001 'x' ++ ['f']), ['-', 's']] = (false, true) := by decide

example :
    firstPos isFullChar ['-' :: (List.replicate 1001 'x' ++ ['f']), ['-', 's']] =
      some (0, 1001) := by decide

end Scratch
